import Mathlib

/-!
Verification of the `.pypeit` reduction-file parsing and reconstruction
subsystem (`pypeit/par/util.py`).

The Python functions are shallowly embedded as Lean definitions.  Filesystem
interaction (`glob.glob`, `os.path.isfile`, `os.path.join`,
`os.path.expanduser`) is abstracted as explicit function parameters.  Python
exceptions are modelled by `Except PErr`; the constructors of `PErr` name the
distinct failure kinds that the code can produce (`msgs.error` aborts are
fatal parse errors, the remaining constructors model uncaught Python
exceptions such as `IndexError`, `ValueError`, `TypeError` and
`UnboundLocalError`).
-/

set_option autoImplicit false

namespace PypeItUtil

/-- Failure kinds of the embedded code.  `evalKind`, `schemaKind`,
`columnMismatch` and `missingFile` correspond to the deliberate fatal errors
of the source (`msgs.error` / explicit `raise`); `indexError`, `valueError`,
`typeError` and `nameError` model uncaught Python exceptions
(`IndexError`, `ValueError`, `TypeError`, `UnboundLocalError`). -/
inductive PErr where
  | evalKind
  | schemaKind
  | columnMismatch
  | missingFile
  | indexError
  | valueError
  | typeError
  | nameError
  deriving DecidableEq, Repr

/-- Python values produced by the restricted `eval` model: integers and
(possibly nested) tuples.  This is the fragment the configuration syntax
exercises; `eval_tuple`'s own docstring warns it "can only handle simple
components". -/
inductive PyVal where
  | int : Int → PyVal
  | tuple : List PyVal → PyVal

/-- Whether a value is a tuple (`isinstance(e, tuple)`). -/
def PyVal.isTuple : PyVal → Bool
  | .tuple _ => true
  | _ => false

/-- Drop leading spaces (insignificant whitespace in a Python expression). -/
def skipWs (cs : List Char) : List Char := cs.dropWhile (· = ' ')

/-- Read a run of decimal digits as a natural number. -/
def digitsToNat (ds : List Char) : Nat :=
  ds.foldl (fun a c => a * 10 + (c.toNat - '0'.toNat)) 0

/-- Parse a decimal integer literal at the head of the input. -/
def parseNatToken (cs : List Char) : Option (Int × List Char) :=
  let ds := cs.takeWhile Char.isDigit
  if ds.isEmpty then none
  else some (((digitsToNat ds : Nat) : Int), cs.drop ds.length)

mutual

/-- Parse one atom: an integer literal (optionally negated) or a
parenthesized expression.  `( elems )` with a single element and no trailing
comma is grouping; otherwise it is a tuple display. -/
def parseAtom : Nat → List Char → Option (PyVal × List Char)
  | 0, _ => none
  | fuel + 1, cs =>
    match skipWs cs with
    | '(' :: rest =>
      match parseElems fuel rest with
      | none => none
      | some (vs, tr, cs2) =>
        match skipWs cs2 with
        | ')' :: cs3 =>
          match vs, tr with
          | [v], false => some (v, cs3)
          | _, _ => some (.tuple vs, cs3)
        | _ => none
    | '-' :: rest =>
      match parseNatToken (skipWs rest) with
      | none => none
      | some (n, cs2) => some (.int (-n), cs2)
    | c :: rest =>
      if c.isDigit then
        match parseNatToken (c :: rest) with
        | none => none
        | some (n, cs2) => some (.int n, cs2)
      else none
    | [] => none

/-- Parse a comma-separated element list, stopping before `)` or the end of
input.  Returns the elements, whether a trailing comma was present, and the
remaining input. -/
def parseElems : Nat → List Char → Option (List PyVal × Bool × List Char)
  | 0, _ => none
  | fuel + 1, cs =>
    match skipWs cs with
    | [] => some ([], false, [])
    | ')' :: rest => some ([], false, ')' :: rest)
    | cs0 =>
      match parseAtom fuel cs0 with
      | none => none
      | some (v, cs1) =>
        match skipWs cs1 with
        | ',' :: cs2 =>
          match parseElems fuel cs2 with
          | none => none
          | some (vs, tr, cs3) => some (v :: vs, if vs.isEmpty then true else tr, cs3)
        | cs1' => some ([v], false, cs1')

end

/-- Model of Python `eval` on the literal expressions the configuration
syntax uses: integers and tuple displays, with top-level comma lists
(`1,2` is the tuple `(1, 2)`).  Any other input fails (a `SyntaxError` or
`NameError` in Python); this is conservative for every string this
development evaluates. -/
def pyEval (s : String) : Option PyVal :=
  let cs := s.toList
  match parseElems (2 * cs.length + 4) cs with
  | none => none
  | some (vs, tr, rest) =>
    if (skipWs rest).isEmpty then
      match vs, tr with
      | [], _ => none
      | [v], false => some v
      | _, _ => some (.tuple vs)
    else none

/-- `_eval_ignore`: strings that are never evaluated. -/
def _eval_ignore : List String := ["open", "file", "dict", "list", "tuple"]

/-- `eval_tuple`: join the input strings with commas and evaluate.  Failure
of the evaluation is the fatal `msgs.error` (`evalKind`).  The membership
scan `any(isinstance(e, tuple) for e in basic)` iterates over the result:
if the result is not iterable (an `int`), Python raises an uncaught
`TypeError` (the scan is outside the `try` block). -/
def eval_tuple (inp : List String) : Except PErr (List PyVal) :=
  let joined := String.intercalate "," inp
  match pyEval joined with
  | none => .error .evalKind
  | some basic =>
    match basic with
    | .int _ => .error .typeError
    | .tuple es => .ok (if es.any PyVal.isTuple then es else [.tuple es])

/-- Raw configuration values as produced by ConfigObj: strings, lists of
strings, or nested sections. -/
inductive CfgVal where
  | str : String → CfgVal
  | list : List String → CfgVal
  | dict : List (String × CfgVal) → CfgVal

/-- Evaluated configuration values: an evaluated Python value, a preserved
string, a list, or a nested section. -/
inductive EvVal where
  | py : PyVal → EvVal
  | str : String → EvVal
  | list : List EvVal → EvVal
  | dict : List (String × EvVal) → EvVal

mutual

/-- `recursive_dict_evaluate`: coerce each configuration value.  Nested
sections recurse; a list of strings with a `(` in some element is routed to
`eval_tuple` (whose failure is fatal and whose `TypeError` propagates); any
other list is evaluated element-wise with silent fallback to the original
string; a scalar string is evaluated unless it is in the ignore list, with
silent fallback on failure. -/
def recursive_dict_evaluate : CfgVal → Except PErr EvVal
  | .str s =>
    if s ∈ _eval_ignore then .ok (.str s)
    else
      match pyEval s with
      | some v => .ok (.py v)
      | none => .ok (.str s)
  | .list ss =>
    if ss.any (fun e => e.toList.contains '(') then
      (eval_tuple ss).map (fun l => .list (l.map .py))
    else
      .ok (.list (ss.map (fun v =>
        if v ∈ _eval_ignore then .str v
        else
          match pyEval v with
          | some pv => .py pv
          | none => .str v)))
  | .dict d => (recursiveEntries d).map EvVal.dict

/-- Evaluate the entries of a nested section in order (part of
`recursive_dict_evaluate`). -/
def recursiveEntries : List (String × CfgVal) → Except PErr (List (String × EvVal))
  | [] => .ok []
  | (k, v) :: rest => do
    let v' ← recursive_dict_evaluate v
    let r ← recursiveEntries rest
    .ok ((k, v') :: r)

end

/-- Split a character list at every occurrence of `sep`, Python
`str.split(sep)` semantics: `n` separators yield `n + 1` (possibly empty)
segments. -/
def splitChars (sep : Char) : List Char → List (List Char)
  | [] => [[]]
  | c :: rest =>
    let r := splitChars sep rest
    if c = sep then [] :: r
    else
      match r with
      | [] => [[c]]
      | h :: t => (c :: h) :: t

/-- Python `s.split(sep)` for a one-character separator (the only kind the
source uses).  Defined structurally so that concrete runs reduce. -/
def strSplitOn (sep : Char) (s : String) : List String :=
  (splitChars sep s.toList).map (fun cs => ⟨cs⟩)

/-- The whitespace characters `str.strip()` removes (the ones that can
occur in a text line). -/
def isWsChar (c : Char) : Bool := c = ' ' || c = '\t' || c = '\n' || c = '\r'

/-- Python `s.strip()`. -/
def strTrim (s : String) : String :=
  ⟨((s.toList.dropWhile isWsChar).reverse.dropWhile isWsChar).reverse⟩

/-- Python `s.replace(a, b)` for one-character patterns. -/
def replaceChar (a b : Char) (s : String) : String :=
  ⟨s.toList.map (fun c => if c = a then b else c)⟩

/-- Whitespace tokenization of a line (`l.split()`).  Lines produced by
`_read_pypeit_file_lines` contain no tabs or newlines (they are replaced by
spaces and stripped), so splitting on the space character is exact. -/
def tokensOf (l : String) : List String := (strSplitOn ' ' l).filter (· ≠ "")

/-- First token of `l.split(' ')` (`_l[0]`); the split of any string is a
nonempty list, so the head always exists. -/
def firstSpaceToken (l : String) : String := (strSplitOn ' ' l).headD ""

/-- `(l[:i], l[i+1:])` for `i = l.index(" ")`: the text before and after
the first space.  `none` models the `ValueError` Python raises when the
line contains no space. -/
def splitFirstSpace (l : String) : Option (String × String) :=
  match strSplitOn ' ' l with
  | [] => none
  | [_] => none
  | t :: rest => some (t, String.intercalate " " rest)

/-- The scanning loop of `_find_pypeit_block`.  State: `start` and `e`
(both `-1` while unset) and the current line index `i`.  A line is
tokenized; with fewer than two tokens the accesses `entries[0]` /
`entries[1]` can raise `IndexError` exactly as in Python (an empty token
list always crashes; a one-token line crashes iff its token equals the
group name).  A line `group read` with `start` unset sets `start = i+1`; a
line `group end` sets `e = i` (unconditionally — there is no guard on
`e`); after a line matching neither pattern the loop breaks if both are
set. -/
def findBlockAux (group : String) : List String → Int → Int → Int → Except PErr (Int × Int)
  | [], start, e, _ => .ok (start, e)
  | l :: rest, start, e, i =>
    match tokensOf l with
    | [] => .error .indexError
    | [t0] =>
      if start < 0 then
        if t0 = group then .error .indexError
        else findBlockAux group rest start e (i + 1)
      else
        if t0 = group then .error .indexError
        else if 0 ≤ e then .ok (start, e)
        else findBlockAux group rest start e (i + 1)
    | t0 :: t1 :: _ =>
      if start < 0 then
        if t0 = group ∧ t1 = "read" then findBlockAux group rest (i + 1) e (i + 1)
        else if t0 = group ∧ t1 = "end" then findBlockAux group rest start i (i + 1)
        else findBlockAux group rest start e (i + 1)
      else
        if t0 = group ∧ t1 = "end" then findBlockAux group rest start i (i + 1)
        else if 0 ≤ e then .ok (start, e)
        else findBlockAux group rest start e (i + 1)

/-- `_find_pypeit_block(lines, group)`: locate the `group read` /
`group end` block.  Returns the pair `(start, end)` of line indices, `-1`
for an absent marker; `.error .indexError` models the uncaught crash on a
line with too few tokens. -/
def _find_pypeit_block (lines : List String) (group : String) : Except PErr (Int × Int) :=
  findBlockAux group lines (-1) (-1) 0

/-- Does a line open the block: first two tokens are the group name and
`read`. -/
def matchOpen (group : String) (l : String) : Bool :=
  match tokensOf l with
  | t0 :: t1 :: _ => t0 = group && t1 = "read"
  | _ => false

/-- Does a line close the block: first two tokens are the group name and
`end`. -/
def matchClose (group : String) (l : String) : Bool :=
  match tokensOf l with
  | t0 :: t1 :: _ => t0 = group && t1 = "end"
  | _ => false

/-- `_read_pypeit_file_lines`, applied to the file content: split into
lines, replace tabs by spaces, strip, drop empty and whole-comment lines,
then cut each remaining line at its first `#`. -/
def _read_pypeit_file_lines (content : String) : List String :=
  let ls := (strSplitOn '\n' content).map (fun l => strTrim (replaceChar '\t' ' ' l))
  let ls := ls.filter (fun l => decide (l.length > 0) && (l.front != '#'))
  ls.map (fun l => (strSplitOn '#' l).headD "")

section DataFiles

variable (glob : String → List String) (expanduser : String → String)
variable (pjoin : String → String → String) (isfile : String → Bool)

/-- `_parse_data_file_name(inp, current_path)`: `~`-expand, join with the
current path when one is set, and glob.  The filesystem-facing pieces
(`os.path.expanduser`, `os.path.join`, `glob.glob`) are the section
parameters. -/
def _parse_data_file_name (inp : String) (current_path : Option String) : List String :=
  let out := if inp.front = '~' then expanduser inp else inp
  let out := match current_path with
    | none => out
    | some p => pjoin p out
  glob out

/-- The line pass of `_read_data_file_names`: thread the current path,
accumulate the glob expansions of `skip` entries and of plain entries.  A
bare `skip` or `path` line with no space models Python's uncaught
`ValueError` from `l.index(" ")`. -/
def gatherDataEntries :
    List String → Option String → List String → List String →
    Except PErr (List String × List String)
  | [], _, skip, read => .ok (skip, read)
  | l :: rest, cp, skip, read =>
    if firstSpaceToken l = "skip" then
      match splitFirstSpace l with
      | none => .error .valueError
      | some (_, path) =>
        gatherDataEntries rest cp (skip ++ _parse_data_file_name glob expanduser pjoin path cp) read
    else if firstSpaceToken l = "path" then
      match splitFirstSpace l with
      | none => .error .valueError
      | some (_, p) => gatherDataEntries rest (some p) skip read
    else
      gatherDataEntries rest cp skip (read ++ _parse_data_file_name glob expanduser pjoin l cp)

/-- Python's `list(set(l))`, entered only when duplicates exist.  The
arbitrary iteration order of a Python `set` is represented by `dedup`
(first occurrences); every property proved about it is order-insensitive. -/
def pyDedupIf (l : List String) : List String :=
  if l.length ≠ l.dedup.length then l.dedup else l

/-- The post-pass of `_read_data_file_names`: deduplicate the skip and read
lists, then for each skip entry remove it from the read list
(`read_inp.remove`, which drops the first occurrence). -/
def finishDataEntries (skip read : List String) : List String :=
  (pyDedupIf skip).foldl (fun r s => if s ∈ r then r.erase s else r) (pyDedupIf read)

/-- `_read_data_file_names(lines, file_check)`: gather, deduplicate, remove
skips; when `file_check` is on, fail with `missingFile` if any remaining
entry does not exist. -/
def _read_data_file_names (file_check : Bool) (lines : List String) :
    Except PErr (List String) := do
  let (skip, read) ← gatherDataEntries glob expanduser pjoin lines none [] []
  let out := finishDataEntries skip read
  if file_check then
    match out.find? (fun f => !isfile f) with
    | some _ => .error .missingFile
    | none => .ok out
  else .ok out

/-- `_determine_data_format`: table format iff some line starts with `|`. -/
def _determine_data_format : List String → String
  | [] => "raw"
  | l :: rest => if l.front = '|' then "table" else _determine_data_format rest

/-- Python's `[1:-1]` slice: drop the first and last element. -/
def pySlice1Neg1 {α : Type} (l : List α) : List α := (l.drop 1).dropLast

/-- Cell extraction for a table line:
`[ c.strip() for c in l.split('|') ][1:-1]`. -/
def parseCells (l : String) : List String :=
  pySlice1Neg1 ((strSplitOn '|' l).map strTrim)

/-- The leading `path` collection loop of `_read_data_file_table`: each
line is split at its first space (`ValueError` when there is none); the
loop breaks at the first line whose leading token is not `path`, otherwise
it records the text after the first space. -/
def collectPaths : List String → List String → Nat → Except PErr (List String × Nat)
  | [], acc, n => .ok (acc, n)
  | l :: rest, acc, n =>
    match splitFirstSpace l with
    | none => .error .valueError
    | some (t, suffix) =>
      if t = "path" then collectPaths rest (acc ++ [suffix]) (n + 1)
      else .ok (acc, n)

/-- Row construction of `_read_data_file_table`: every line after the
header is a row whose cell count must equal the header's
(`ValueError: Data and header lines have mismatched columns!`, i.e.
`columnMismatch`). -/
def parseRows (ncols : Nat) : List String → Except PErr (List (List String))
  | [] => .ok []
  | l :: rest =>
    let row := parseCells l
    if row.length ≠ ncols then .error .columnMismatch
    else do
      let rs ← parseRows ncols rest
      .ok (row :: rs)

/-- Index of the last occurrence of `a` in `l` (meaningful when `a ∈ l`).
Duplicate header names make the *last* column win, because
`data[key] = tbl[:,i]` overwrites earlier assignments. -/
def lastIdxOf (l : List String) (a : String) : Nat :=
  l.length - 1 - List.indexOf a l.reverse

/-- Python dict assignment `d[k] = v`: overwrite in place when the key is
present, append otherwise (insertion order preserved). -/
def dictInsert (d : List (String × String)) (k v : String) : List (String × String) :=
  if d.any (fun p => p.1 = k) then d.map (fun p => if p.1 = k then (k, v) else p)
  else d ++ [(k, v)]

/-- The path-probing loop `for p in paths: filename = join(p, fn); if
isfile(filename): break`.  Produces the first existing join, or the join
with the last path when none exists; `none` when `paths` is empty (the
loop never runs and `filename` stays unbound). -/
def resolveFile : List String → String → Option String
  | [], _ => none
  | [p], fn => some (pjoin p fn)
  | p :: q :: rest, fn =>
    if isfile (pjoin p fn) then some (pjoin p fn) else resolveFile (q :: rest) fn

/-- `resolveFile` with a default, used to state its result when
`paths ≠ []`. -/
def resolveD (paths : List String) (fn : String) : String :=
  match resolveFile pjoin isfile paths fn with
  | some f => f
  | none => fn

/-- The final loop of `_read_data_file_table`: for each row record the
frametype under the unresolved filename, resolve the filename against the
declared paths (`UnboundLocalError` — `nameError` — when no path was
declared), append the resolved name, and with `file_check` fail when the
resolved file does not exist. -/
def buildRows (file_check : Bool) (paths : List String) (fnIdx ftIdx : Nat) :
    List (List String) → List String → List (String × String) →
    Except PErr (List String × List (String × String))
  | [], df, ft => .ok (df, ft)
  | row :: rest, df, ft =>
    let fn := row.getD fnIdx ""
    let ft' := dictInsert ft fn (row.getD ftIdx "")
    match resolveFile pjoin isfile paths fn with
    | none => .error .nameError
    | some filename =>
      if !isfile filename && file_check then .error .missingFile
      else buildRows file_check paths fnIdx ftIdx rest (df ++ [filename]) ft'

/-- `_read_data_file_table(lines, file_check)`: collect the leading `path`
lines, read the header from the next line (`filename` and `frametype` are
mandatory — `schemaKind`), parse the remaining lines as rows, then build
the resolved data-file list and the frametype mapping.  The returned
table is represented by its header and rows. -/
def _read_data_file_table (file_check : Bool) (lines : List String) :
    Except PErr (List String × List (String × String) × List String × List (List String)) := do
  let (paths, npaths) ← collectPaths lines [] 0
  match lines.get? npaths with
  | none => .error .indexError
  | some hl =>
    let header := parseCells hl
    if "filename" ∉ header then .error .schemaKind
    else if "frametype" ∉ header then .error .schemaKind
    else do
      let rows ← parseRows header.length (lines.drop (npaths + 1))
      let fnIdx := lastIdxOf header "filename"
      let ftIdx := lastIdxOf header "frametype"
      let (df, ft) ← buildRows pjoin isfile file_check paths fnIdx ftIdx rows [] []
      .ok (df, ft, header, rows)

end DataFiles

/-- `make_pypeit_file`: the text written to the reduction file, reproduced
write-by-write.  `version` and `date` stand for the interpolated
`__version__` and time stamp; when `cfg_lines` is absent a minimal
`[rdx]` section naming the spectrograph is synthesized. -/
def make_pypeit_file (version date spectrograph : String) (data_files : List String)
    (cfg_lines : Option (List String)) (setup_lines : Option (List String))
    (sorted_files : Option (List String)) (paths : Option (List String)) : String :=
  let cfg := match cfg_lines with
    | none => ["[rdx]", "    spectrograph = " ++ spectrograph]
    | some c => c
  "# Auto-generated PypeIt file using PypeIt version: " ++ version ++ "\n" ++
  "# " ++ date ++ "\n" ++
  "\n" ++
  "# User-defined execution parameters\n" ++
  String.intercalate "\n" cfg ++ "\n" ++
  "\n" ++
  (match setup_lines with
   | none => ""
   | some sl =>
     "# Setup\n" ++ "setup read\n" ++ String.intercalate "\n" sl ++ "\n" ++
     "setup end\n" ++ "\n") ++
  "# Read in the data\n" ++
  "data read\n" ++
  String.join (data_files.map (fun f => " " ++ f ++ "\n")) ++
  (match paths with
   | none => ""
   | some ps => String.join (ps.map (fun p => " path " ++ p ++ "\n"))) ++
  (match sorted_files with
   | none => ""
   | some sf => String.intercalate "\n" sf ++ "\n") ++
  "data end\n" ++
  "\n"

/-! ## Claim theorems -/

/-- C1, counterexample.  The claim predicts that the value
`["open", "3", "bogus("]` is evaluated element-wise with silent fallback.
In the code, any list with a `(` in some element is routed to `eval_tuple`,
whose failure is the fatal `msgs.error`; the claimed element-wise result is
not produced. -/
theorem C1_counterexample :
    recursive_dict_evaluate (CfgVal.list ["open", "3", "bogus("]) ≠
      Except.ok (EvVal.list [EvVal.str "open", EvVal.py (PyVal.int 3),
        EvVal.str "bogus("]) := by
  intro h
  rw [show recursive_dict_evaluate (CfgVal.list ["open", "3", "bogus("]) =
      Except.error PErr.evalKind by simp only [recursive_dict_evaluate]; rfl] at h
  exact Except.noConfusion h

/-- C1, amended.  Because `"bogus("` contains `(`, the Evaluator routes the
whole list `["open", "3", "bogus("]` into tuple-context evaluation, whose
failure is fatal (`evalKind`) — there is no silent fallback.  The claimed
element-wise behavior (preserve `"open"`, convert `"3"`, preserve the
unevaluable string) does occur, but only for lists without a `(`, as the
second conjunct shows on `["open", "3", "bogus"]`. -/
theorem C1_evaluator_paren_list_fatal :
    recursive_dict_evaluate (CfgVal.list ["open", "3", "bogus("]) =
      Except.error PErr.evalKind ∧
    recursive_dict_evaluate (CfgVal.list ["open", "3", "bogus"]) =
      Except.ok (EvVal.list [EvVal.str "open", EvVal.py (PyVal.int 3),
        EvVal.str "bogus"]) := by
  constructor
  · simp only [recursive_dict_evaluate]; rfl
  · simp only [recursive_dict_evaluate]; rfl

/-- C7, counterexample.  For the value `["(7)"]` the joined text `"(7)"`
evaluates to the integer `7` (parentheses are grouping, not a tuple).  The
claim then requires the single result to be wrapped in a one-element list;
instead the membership scan iterates over a non-iterable and the code
crashes with `TypeError` — which is also not the claimed fatal `evalKind`
path. -/
theorem C7_counterexample :
    recursive_dict_evaluate (CfgVal.list ["(7)"]) = Except.error PErr.typeError ∧
    eval_tuple ["(7)"] ≠ Except.ok [PyVal.int 7] ∧
    eval_tuple ["(7)"] ≠ Except.error PErr.evalKind := by
  refine ⟨by simp only [recursive_dict_evaluate]; rfl, fun h => ?_, fun h => ?_⟩
  · rw [show eval_tuple ["(7)"] = Except.error PErr.typeError from rfl] at h
    exact Except.noConfusion h
  · rw [show eval_tuple ["(7)"] = Except.error PErr.typeError from rfl] at h
    cases h

/-- C7, amended.  For every list value with a `(` in some element the
Evaluator hands the comma-joined text to `eval_tuple`; when the join fails
to evaluate the error is fatal (`evalKind`); when it evaluates to a tuple,
a tuple of tuples is flattened one level and any other tuple result is
wrapped in a one-element list.  (The original claim's "otherwise wrap the
single result" clause fails when the result is not iterable — see the
counterexample — so the wrapping statement is restricted to evaluated
tuples.) -/
theorem C7_tuple_context (ss : List String)
    (hp : ss.any (fun e => e.toList.contains '(') = true) :
    recursive_dict_evaluate (CfgVal.list ss) =
      (eval_tuple ss).map (fun l => EvVal.list (l.map EvVal.py)) ∧
    (pyEval (String.intercalate "," ss) = none →
      eval_tuple ss = Except.error PErr.evalKind) ∧
    (∀ es, pyEval (String.intercalate "," ss) = some (PyVal.tuple es) →
      eval_tuple ss = Except.ok (if es.any PyVal.isTuple then es else [PyVal.tuple es])) := by
  refine ⟨?_, fun h => ?_, fun es h => ?_⟩
  · simp only [recursive_dict_evaluate, hp, if_true]
  · simp only [eval_tuple, h]
  · simp only [eval_tuple, h]

/-- C7, witness.  The tuple `(1, 2)` arrives from ConfigObj as the list
`["(1", "2)"]`; the join evaluates to a tuple with no tuple elements, so it
is wrapped in a one-element list. -/
theorem C7_tuple_context_witness :
    (["(1", "2)"].any (fun e => e.toList.contains '(') = true) ∧
    recursive_dict_evaluate (CfgVal.list ["(1", "2)"]) =
      (eval_tuple ["(1", "2)"]).map (fun l => EvVal.list (l.map EvVal.py)) ∧
    eval_tuple ["(1", "2)"] = Except.ok [PyVal.tuple [PyVal.int 1, PyVal.int 2]] := by
  have h := C7_tuple_context ["(1", "2)"] (by rfl)
  exact ⟨by rfl, h.1, by rfl⟩

/-- C10.  When the comma-joined input evaluates to a plain integer (as any
single parenthesized scalar such as `["(3)"]` does), the membership scan
`any(isinstance(e, tuple) for e in basic)` iterates over a non-iterable:
the uncaught `TypeError` propagates instead of a returned list or the
`evalKind` error. -/
theorem C10_eval_tuple_crash (inp : List String) (n : Int)
    (h : pyEval (String.intercalate "," inp) = some (PyVal.int n)) :
    eval_tuple inp = Except.error PErr.typeError ∧ PErr.typeError ≠ PErr.evalKind := by
  refine ⟨?_, by decide⟩
  simp only [eval_tuple, h]

/-- C10, witness at the input `["(3)"]` named by the claim. -/
theorem C10_eval_tuple_crash_witness :
    pyEval (String.intercalate "," ["(3)"]) = some (PyVal.int 3) ∧
    eval_tuple ["(3)"] = Except.error PErr.typeError := by
  exact ⟨by rfl, (C10_eval_tuple_crash ["(3)"] 3 (by rfl)).1⟩

/-- C8.  The block locator is not total: a scanned line whose tokenization
is exactly the bare group name makes `entries[1]` raise `IndexError`, in
whatever scan state (`start`, `e`, `i`) the loop has reached; in
particular a file whose first line is such a line crashes the locator
instead of returning `(start, end)`. -/
theorem C8_locator_crash (group l : String) (rest : List String) (start e i : Int)
    (h : tokensOf l = [group]) :
    findBlockAux group (l :: rest) start e i = Except.error PErr.indexError ∧
    _find_pypeit_block (l :: rest) group = Except.error PErr.indexError := by
  constructor
  · simp only [findBlockAux, h]
    split <;> simp
  · simp only [_find_pypeit_block, findBlockAux, h]
    split <;> simp

/-- C8, witness: the bare line `"data"` while searching for the `data`
block. -/
theorem C8_locator_crash_witness :
    tokensOf "data" = ["data"] ∧
    _find_pypeit_block ["data"] "data" = Except.error PErr.indexError :=
  ⟨by rfl, (C8_locator_crash "data" "data" [] (-1) (-1) 0 (by rfl)).2⟩

/-- C3, counterexample.  On `["data read", "data end", "data end"]` the
first close marker is at index `1`, so the claim requires the result
`(1, 1)`; but the close branch has no "already set" guard and the loop
only breaks after a line matching neither marker, so the second `data end`
overwrites the end index and the locator returns `(1, 2)`. -/
theorem C3_counterexample :
    _find_pypeit_block ["data read", "data end", "data end"] "data" =
      Except.ok (1, 2) ∧
    _find_pypeit_block ["data read", "data end", "data end"] "data" ≠
      Except.ok (1, 1) := by
  refine ⟨by rfl, fun h => ?_⟩
  rw [show _find_pypeit_block ["data read", "data end", "data end"] "data" =
      Except.ok ((1 : Int), (2 : Int)) from rfl] at h
  simp at h

/-- Once `start` is set (non-negative) the scan never changes it: every
recursive step passes it through unchanged. -/
theorem findBlockAux_start_fixed (group : String) (rem : List String) :
    ∀ (start e i s' e' : Int), 0 ≤ start →
      findBlockAux group rem start e i = Except.ok (s', e') → s' = start := by
  induction rem with
  | nil =>
    intro start e i s' e' hs h
    simp only [findBlockAux] at h
    injection h with h1
    injection h1 with h2 h3
    exact h2.symm
  | cons l rest ih =>
    intro start e i s' e' hs h
    simp only [findBlockAux] at h
    split at h
    · exact Except.noConfusion h
    · rw [if_neg (not_lt.mpr hs)] at h
      split at h
      · exact Except.noConfusion h
      · split at h
        · injection h with h1
          injection h1 with h2 h3
          exact h2.symm
        · exact ih _ _ _ _ _ hs h
    · rw [if_neg (not_lt.mpr hs)] at h
      split at h
      · exact ih _ _ _ _ _ hs h
      · split at h
        · injection h with h1
          injection h1 with h2 h3
          exact h2.symm
        · exact ih _ _ _ _ _ hs h

/-- A line with a single token never matches the open pattern. -/
theorem matchOpen_false_one {group l t0 : String} (htok : tokensOf l = [t0]) :
    matchOpen group l = false := by
  simp [matchOpen, htok]

/-- A two-token line whose tokens are not the open pair never matches the
open pattern. -/
theorem matchOpen_false_two {group l t0 t1 : String} {ts : List String}
    (htok : tokensOf l = t0 :: t1 :: ts) (hneg : ¬(t0 = group ∧ t1 = "read")) :
    matchOpen group l = false := by
  simp only [matchOpen, htok]
  by_cases h1 : t0 = group <;> by_cases h2 : t1 = "read" <;> simp [h1, h2]
  exact absurd ⟨h1, h2⟩ hneg

/-- A line whose first two tokens are the open pair matches the open
pattern. -/
theorem matchOpen_true_two {group l t0 t1 : String} {ts : List String}
    (htok : tokensOf l = t0 :: t1 :: ts) (h1 : t0 = group) (h2 : t1 = "read") :
    matchOpen group l = true := by
  simp [matchOpen, htok, h1, h2]

/-- A line whose first two tokens are the close pair matches the close
pattern. -/
theorem matchClose_true_two {group l t0 t1 : String} {ts : List String}
    (htok : tokensOf l = t0 :: t1 :: ts) (h1 : t0 = group) (h2 : t1 = "end") :
    matchClose group l = true := by
  simp [matchClose, htok, h1, h2]

/-- When the scan starts with `start` unset and returns successfully,
either `start` was never set, or it is one past the index of the *first*
line matching the open pattern: the `start < 0` guard means no later open
marker can move it. -/
theorem findBlockAux_start_found (group : String) (rem : List String) :
    ∀ (start e i s' e' : Int), start < 0 → 0 ≤ i →
      findBlockAux group rem start e i = Except.ok (s', e') →
      s' = start ∨
      ∃ k : Nat, (∃ lk, rem.get? k = some lk ∧ matchOpen group lk = true) ∧
        s' = i + k + 1 ∧
        (∀ j : Nat, j < k → ∀ l', rem.get? j = some l' → matchOpen group l' = false) := by
  induction rem with
  | nil =>
    intro start e i s' e' hs hi h
    simp only [findBlockAux] at h
    injection h with h1
    injection h1 with h2 h3
    exact Or.inl h2.symm
  | cons l rest ih =>
    intro start e i s' e' hs hi h
    simp only [findBlockAux] at h
    split at h
    · exact Except.noConfusion h
    next t0 htok =>
      rw [if_pos hs] at h
      split at h
      · exact Except.noConfusion h
      · rcases ih start e (i + 1) s' e' hs (by omega) h with hl | ⟨k, ⟨lk, hget, hop⟩, hs', hfirst⟩
        · exact Or.inl hl
        · refine Or.inr ⟨k + 1, ⟨lk, by simpa using hget, hop⟩, by push_cast; omega, ?_⟩
          intro j hj l' hget'
          cases j with
          | zero =>
            simp only [List.get?_cons_zero, Option.some.injEq] at hget'
            subst hget'
            exact matchOpen_false_one htok
          | succ jj =>
            exact hfirst jj (by omega) l' (by simpa using hget')
    next t0 t1 ts htok =>
      rw [if_pos hs] at h
      split at h
      next hc =>
        have hs2 := findBlockAux_start_fixed group rest (i + 1) e (i + 1) s' e' (by omega) h
        refine Or.inr ⟨0, ⟨l, by simp, matchOpen_true_two htok hc.1 hc.2⟩, by omega, ?_⟩
        intro j hj
        omega
      next hneg =>
        split at h
        next hc =>
          rcases ih start i (i + 1) s' e' hs (by omega) h with hl | ⟨k, ⟨lk, hget, hop⟩, hs', hfirst⟩
          · exact Or.inl hl
          · refine Or.inr ⟨k + 1, ⟨lk, by simpa using hget, hop⟩, by push_cast; omega, ?_⟩
            intro j hj l' hget'
            cases j with
            | zero =>
              simp only [List.get?_cons_zero, Option.some.injEq] at hget'
              subst hget'
              exact matchOpen_false_two htok hneg
            | succ jj =>
              exact hfirst jj (by omega) l' (by simpa using hget')
        next hc2 =>
          rcases ih start e (i + 1) s' e' hs (by omega) h with hl | ⟨k, ⟨lk, hget, hop⟩, hs', hfirst⟩
          · exact Or.inl hl
          · refine Or.inr ⟨k + 1, ⟨lk, by simpa using hget, hop⟩, by push_cast; omega, ?_⟩
            intro j hj l' hget'
            cases j with
            | zero =>
              simp only [List.get?_cons_zero, Option.some.injEq] at hget'
              subst hget'
              exact matchOpen_false_two htok hneg
            | succ jj =>
              exact hfirst jj (by omega) l' (by simpa using hget')

/-- When the scan returns successfully, the end index is either the value
it started with or the index of *some* line matching the close pattern —
not necessarily the first, since the close branch overwrites `e`
unconditionally. -/
theorem findBlockAux_end_close (group : String) (rem : List String) :
    ∀ (start e i s' e' : Int), 0 ≤ i →
      findBlockAux group rem start e i = Except.ok (s', e') →
      e' = e ∨ ∃ k : Nat, (∃ lk, rem.get? k = some lk ∧ matchClose group lk = true) ∧
        e' = i + k := by
  induction rem with
  | nil =>
    intro start e i s' e' hi h
    simp only [findBlockAux] at h
    injection h with h1
    injection h1 with h2 h3
    exact Or.inl h3.symm
  | cons l rest ih =>
    intro start e i s' e' hi h
    simp only [findBlockAux] at h
    split at h
    · exact Except.noConfusion h
    next t0 htok =>
      split at h
      · split at h
        · exact Except.noConfusion h
        · rcases ih start e (i + 1) s' e' (by omega) h with hl | ⟨k, ⟨lk, hget, hcl⟩, he'⟩
          · exact Or.inl hl
          · exact Or.inr ⟨k + 1, ⟨lk, by simpa using hget, hcl⟩, by push_cast; omega⟩
      · split at h
        · exact Except.noConfusion h
        · split at h
          · injection h with h1
            injection h1 with h2 h3
            exact Or.inl h3.symm
          · rcases ih start e (i + 1) s' e' (by omega) h with hl | ⟨k, ⟨lk, hget, hcl⟩, he'⟩
            · exact Or.inl hl
            · exact Or.inr ⟨k + 1, ⟨lk, by simpa using hget, hcl⟩, by push_cast; omega⟩
    next t0 t1 ts htok =>
      split at h
      · split at h
        · rcases ih (i + 1) e (i + 1) s' e' (by omega) h with hl | ⟨k, ⟨lk, hget, hcl⟩, he'⟩
          · exact Or.inl hl
          · exact Or.inr ⟨k + 1, ⟨lk, by simpa using hget, hcl⟩, by push_cast; omega⟩
        · split at h
          next hc =>
            rcases ih start i (i + 1) s' e' (by omega) h with hl | ⟨k, ⟨lk, hget, hcl⟩, he'⟩
            · exact Or.inr ⟨0, ⟨l, by simp, matchClose_true_two htok hc.1 hc.2⟩, by omega⟩
            · exact Or.inr ⟨k + 1, ⟨lk, by simpa using hget, hcl⟩, by push_cast; omega⟩
          · rcases ih start e (i + 1) s' e' (by omega) h with hl | ⟨k, ⟨lk, hget, hcl⟩, he'⟩
            · exact Or.inl hl
            · exact Or.inr ⟨k + 1, ⟨lk, by simpa using hget, hcl⟩, by push_cast; omega⟩
      · split at h
        next hc =>
          rcases ih start i (i + 1) s' e' (by omega) h with hl | ⟨k, ⟨lk, hget, hcl⟩, he'⟩
          · exact Or.inr ⟨0, ⟨l, by simp, matchClose_true_two htok hc.1 hc.2⟩, by omega⟩
          · exact Or.inr ⟨k + 1, ⟨lk, by simpa using hget, hcl⟩, by push_cast; omega⟩
        · split at h
          · injection h with h1
            injection h1 with h2 h3
            exact Or.inl h3.symm
          · rcases ih start e (i + 1) s' e' (by omega) h with hl | ⟨k, ⟨lk, hget, hcl⟩, he'⟩
            · exact Or.inl hl
            · exact Or.inr ⟨k + 1, ⟨lk, by simpa using hget, hcl⟩, by push_cast; omega⟩

/-- C3, amended.  When the locator returns `(s, e)`: a non-negative `s` is
one past the *first* open-marker line (the `start < 0` guard means later
open markers never move it, as the claim says); a non-negative `e` is the
index of *a* close-marker line, but not necessarily the first one — the
close branch overwrites `e` unconditionally and the loop only stops at the
first non-marker line once both indices are set, so duplicate close
markers that immediately follow the first can shift `e` (see the
counterexample). -/
theorem C3_block_markers (lines : List String) (group : String) (s e : Int)
    (h : _find_pypeit_block lines group = Except.ok (s, e)) :
    (0 ≤ s → ∃ k : Nat, s = (k : Int) + 1 ∧
      (∃ l, lines.get? k = some l ∧ matchOpen group l = true) ∧
      (∀ j : Nat, j < k → ∀ l', lines.get? j = some l' → matchOpen group l' = false)) ∧
    (0 ≤ e → ∃ k : Nat, e = (k : Int) ∧
      ∃ l, lines.get? k = some l ∧ matchClose group l = true) := by
  constructor
  · intro hs
    rcases findBlockAux_start_found group lines (-1) (-1) 0 s e (by norm_num) (le_refl 0) h
      with h1 | ⟨k, hk, hs', hfirst⟩
    · omega
    · exact ⟨k, by omega, hk, hfirst⟩
  · intro he
    rcases findBlockAux_end_close group lines (-1) (-1) 0 s e (le_refl 0) h
      with h1 | ⟨k, hk, he'⟩
    · omega
    · exact ⟨k, by omega, hk⟩

/-- C3, witness at a well-formed block. -/
theorem C3_block_markers_witness :
    (_find_pypeit_block ["data read", "x y", "data end"] "data" = Except.ok (1, 2)) ∧
    ((0 : Int) ≤ 1 → ∃ k : Nat, (1 : Int) = (k : Int) + 1 ∧
      (∃ l, ["data read", "x y", "data end"].get? k = some l ∧ matchOpen "data" l = true) ∧
      (∀ j : Nat, j < k → ∀ l', ["data read", "x y", "data end"].get? j = some l' →
        matchOpen "data" l' = false)) ∧
    ((0 : Int) ≤ 2 → ∃ k : Nat, (2 : Int) = (k : Int) ∧
      ∃ l, ["data read", "x y", "data end"].get? k = some l ∧ matchClose "data" l = true) := by
  have h := C3_block_markers ["data read", "x y", "data end"] "data" 1 2 (by rfl)
  exact ⟨by rfl, h.1, h.2⟩

/-- `pyDedupIf` always yields a duplicate-free list: either it deduplicates,
or the length test already certifies the list had no duplicates. -/
theorem pyDedupIf_nodup (l : List String) : (pyDedupIf l).Nodup := by
  unfold pyDedupIf
  split
  · exact l.nodup_dedup
  · next h =>
    have hlen : l.dedup.length = l.length := by omega
    have heq : l.dedup = l := l.dedup_sublist.eq_of_length hlen
    rw [← heq]
    exact l.nodup_dedup

/-- `pyDedupIf` preserves membership. -/
theorem pyDedupIf_mem (l : List String) (a : String) : a ∈ pyDedupIf l ↔ a ∈ l := by
  unfold pyDedupIf
  split
  · exact List.mem_dedup
  · exact Iff.rfl

/-- The skip-removal fold on a duplicate-free read list stays duplicate-free
and keeps exactly the elements not in the skip list: each `remove` drops the
single occurrence of its argument. -/
theorem removeFold_spec (sk : List String) :
    ∀ rd : List String, rd.Nodup →
      (sk.foldl (fun r s => if s ∈ r then r.erase s else r) rd).Nodup ∧
      ∀ a, a ∈ sk.foldl (fun r s => if s ∈ r then r.erase s else r) rd ↔ a ∈ rd ∧ a ∉ sk := by
  induction sk with
  | nil =>
    intro rd h
    exact ⟨h, fun a => by simp⟩
  | cons s tl ih =>
    intro rd h
    simp only [List.foldl_cons]
    have hnd' : (if s ∈ rd then rd.erase s else rd).Nodup := by
      split
      · exact h.erase s
      · exact h
    have hmem' : ∀ a, a ∈ (if s ∈ rd then rd.erase s else rd) ↔ a ∈ rd ∧ a ≠ s := by
      intro a
      split
      next hin =>
        constructor
        · intro ha
          exact ⟨(h.mem_erase_iff.mp ha).2, (h.mem_erase_iff.mp ha).1⟩
        · intro hp
          exact h.mem_erase_iff.mpr ⟨hp.2, hp.1⟩
      next hnin =>
        constructor
        · intro ha
          exact ⟨ha, fun he => hnin (he ▸ ha)⟩
        · intro hp
          exact hp.1
    obtain ⟨hnd2, hmem2⟩ := ih _ hnd'
    refine ⟨hnd2, fun a => ?_⟩
    rw [hmem2 a, hmem' a]
    simp only [List.mem_cons]
    tauto

/-- The post-pass of `_read_data_file_names` is duplicate-free and keeps
exactly the gathered read entries that are not gathered skip entries. -/
theorem finishDataEntries_spec (skip read : List String) :
    (finishDataEntries skip read).Nodup ∧
    ∀ a, a ∈ finishDataEntries skip read ↔ a ∈ read ∧ a ∉ skip := by
  unfold finishDataEntries
  obtain ⟨h1, h2⟩ := removeFold_spec (pyDedupIf skip) (pyDedupIf read) (pyDedupIf_nodup read)
  refine ⟨h1, fun a => ?_⟩
  rw [h2 a, pyDedupIf_mem, not_congr (pyDedupIf_mem skip a)]

/-- A successful `_read_data_file_names` run returns exactly the post-pass
of its gathered skip and read lists (for either value of `file_check`). -/
theorem read_names_finish (glob : String → List String) (eu : String → String)
    (pj : String → String → String) (isf : String → Bool) (fc : Bool)
    (lines out skip read : List String)
    (hg : gatherDataEntries glob eu pj lines none [] [] = Except.ok (skip, read))
    (h : _read_data_file_names glob eu pj isf fc lines = Except.ok out) :
    out = finishDataEntries skip read := by
  unfold _read_data_file_names at h
  rw [hg] at h
  simp only [Bind.bind, Except.bind] at h
  split at h
  · split at h
    · exact Except.noConfusion h
    · injection h with h1
      exact h1.symm
  · injection h with h1
    exact h1.symm

/-- C5.  For every raw-mode data block that the reader interprets
successfully, the output file set equals the glob expansion of the read
entries minus the glob expansion of the skip entries; the output has no
duplicates and contains no skipped path.  The set depends only on the
gathered read and skip expansions: a second block (even under different
filesystem functions) whose gathered read and skip lists are permutations
of the first produces the same set — the relative ordering of file and
skip entries is immaterial, while `path` directives act through the
gathering pass itself, affecting only the entries after them. -/
theorem C5_raw_set_semantics
    (glob glob' : String → List String) (eu eu' : String → String)
    (pj pj' : String → String → String) (isf isf' : String → Bool)
    (fc fc' : Bool) (lines lines' : List String)
    (out out' skip read skip' read' : List String)
    (hg : gatherDataEntries glob eu pj lines none [] [] = Except.ok (skip, read))
    (h : _read_data_file_names glob eu pj isf fc lines = Except.ok out)
    (hg' : gatherDataEntries glob' eu' pj' lines' none [] [] = Except.ok (skip', read'))
    (h' : _read_data_file_names glob' eu' pj' isf' fc' lines' = Except.ok out')
    (hps : skip'.Perm skip) (hpr : read'.Perm read) :
    out.toFinset = read.toFinset \ skip.toFinset ∧
    out.Nodup ∧
    (∀ s ∈ skip, s ∉ out) ∧
    out'.toFinset = out.toFinset := by
  have hout := read_names_finish glob eu pj isf fc lines out skip read hg h
  have hout' := read_names_finish glob' eu' pj' isf' fc' lines' out' skip' read' hg' h'
  obtain ⟨hnd, hmem⟩ := finishDataEntries_spec skip read
  obtain ⟨hnd', hmem'⟩ := finishDataEntries_spec skip' read'
  subst hout hout'
  refine ⟨?_, hnd, ?_, ?_⟩
  · ext a
    simp only [List.mem_toFinset, Finset.mem_sdiff, hmem a]
  · intro s hs hmem2
    exact ((hmem s).mp hmem2).2 hs
  · ext a
    simp only [List.mem_toFinset, hmem a, hmem' a, hps.mem_iff, hpr.mem_iff]

/-- C5, witness: a block with a duplicate read entry and a skip entry, and
a reordered variant of it. -/
theorem C5_raw_set_semantics_witness :
    (["a.fits"].toFinset = ["a.fits", "b.fits", "a.fits"].toFinset \ ["b.fits"].toFinset ∧
     ["a.fits"].Nodup ∧
     (∀ s ∈ ["b.fits"], s ∉ ["a.fits"]) ∧
     ["a.fits"].toFinset = ["a.fits"].toFinset) := by
  have h := C5_raw_set_semantics
    (fun s => [s]) (fun s => [s]) id id (fun a b => a ++ "/" ++ b) (fun a b => a ++ "/" ++ b)
    (fun _ => true) (fun _ => true) false false
    ["a.fits", "skip b.fits", "b.fits", "a.fits"] ["b.fits", "a.fits", "a.fits", "skip b.fits"]
    ["a.fits"] ["a.fits"] ["b.fits"] ["a.fits", "b.fits", "a.fits"]
    ["b.fits"] ["b.fits", "a.fits", "a.fits"]
    (by rfl) (by rfl) (by rfl) (by rfl) (by decide) (by decide)
  exact h

/-- C2.  Writing a reduction file from the raw list
`["a.fits", "b.fits"]` with no setup lines, locating its data block, and
interpreting the block in raw mode returns exactly `["a.fits", "b.fits"]`
in order.  The filesystem hypotheses say the two literal paths exist, so
`glob.glob` maps each to itself — the premise the round trip needs, since
a glob of a nonexistent literal is empty. -/
theorem C2_roundtrip (glob : String → List String) (eu : String → String)
    (pj : String → String → String) (isf : String → Bool)
    (hga : glob "a.fits" = ["a.fits"]) (hgb : glob "b.fits" = ["b.fits"]) :
    _find_pypeit_block
      (_read_pypeit_file_lines (make_pypeit_file "1.10.0" "2026-10-12" "shane_kast_blue"
        ["a.fits", "b.fits"] none none none none)) "data" = Except.ok (3, 5) ∧
    _read_data_file_names glob eu pj isf false
      (((_read_pypeit_file_lines (make_pypeit_file "1.10.0" "2026-10-12" "shane_kast_blue"
        ["a.fits", "b.fits"] none none none none)).drop 3).take (5 - 3)) =
      Except.ok ["a.fits", "b.fits"] := by
  constructor
  · rfl
  · rw [show (((_read_pypeit_file_lines (make_pypeit_file "1.10.0" "2026-10-12" "shane_kast_blue"
        ["a.fits", "b.fits"] none none none none)).drop 3).take (5 - 3)) =
        ["a.fits", "b.fits"] from rfl]
    have hgather : gatherDataEntries glob eu pj ["a.fits", "b.fits"] none [] [] =
        Except.ok ([], ["a.fits", "b.fits"]) := by
      unfold gatherDataEntries
      rw [if_neg (by decide : ¬(firstSpaceToken "a.fits" = "skip")),
          if_neg (by decide : ¬(firstSpaceToken "a.fits" = "path"))]
      unfold gatherDataEntries
      rw [if_neg (by decide : ¬(firstSpaceToken "b.fits" = "skip")),
          if_neg (by decide : ¬(firstSpaceToken "b.fits" = "path"))]
      rw [show _parse_data_file_name glob eu pj "a.fits" none = glob "a.fits" from rfl, hga,
          show _parse_data_file_name glob eu pj "b.fits" none = glob "b.fits" from rfl, hgb]
      rfl
    unfold _read_data_file_names
    rw [hgather]
    rfl

/-- C2, witness with a concrete filesystem in which every literal exists. -/
theorem C2_roundtrip_witness :
    _find_pypeit_block
      (_read_pypeit_file_lines (make_pypeit_file "1.10.0" "2026-10-12" "shane_kast_blue"
        ["a.fits", "b.fits"] none none none none)) "data" = Except.ok (3, 5) ∧
    _read_data_file_names (fun s => [s]) id (fun a b => a ++ "/" ++ b) (fun _ => true) false
      (((_read_pypeit_file_lines (make_pypeit_file "1.10.0" "2026-10-12" "shane_kast_blue"
        ["a.fits", "b.fits"] none none none none)).drop 3).take (5 - 3)) =
      Except.ok ["a.fits", "b.fits"] :=
  C2_roundtrip (fun s => [s]) id (fun a b => a ++ "/" ++ b) (fun _ => true) (by rfl) (by rfl)

/-- Indexing an appended list right at the boundary yields the head of the
second part. -/
theorem get?_at_head {α : Type} : ∀ (xs : List α) (y : α) (r : List α),
    (xs ++ y :: r).get? xs.length = some y := by
  intro xs
  induction xs with
  | nil => intro y r; rfl
  | cons x tl ih => intro y r; simpa using ih y r

/-- Dropping one past the boundary of an appended list yields the tail of
the second part. -/
theorem drop_after_head {α : Type} : ∀ (xs : List α) (y : α) (r : List α),
    (xs ++ y :: r).drop (xs.length + 1) = r := by
  intro xs
  induction xs with
  | nil => intro y r; rfl
  | cons x tl ih =>
    intro y r
    simp only [List.cons_append, List.length_cons, List.drop_succ_cons]
    exact ih y r

/-- The path-collection loop on a block made of `path` lines followed by a
line whose leading token is not `path` gathers exactly the path suffixes
and counts them. -/
theorem collectPaths_append (hl : String) (t s0 : String)
    (hh : splitFirstSpace hl = some (t, s0)) (ht : t ≠ "path") :
    ∀ (pls : List (String × String)),
      (∀ pr ∈ pls, splitFirstSpace pr.1 = some ("path", pr.2)) →
      ∀ (rest acc : List String) (n : Nat),
        collectPaths (pls.map (fun pr => pr.1) ++ hl :: rest) acc n =
          Except.ok (acc ++ pls.map (fun pr => pr.2), n + pls.length) := by
  intro pls
  induction pls with
  | nil =>
    intro hp rest acc n
    simp only [List.map_nil, List.nil_append, collectPaths, hh]
    rw [if_neg ht]
    simp
  | cons pr tl ih =>
    intro hp rest acc n
    have hpr := hp pr (List.mem_cons_self pr tl)
    simp only [List.map_cons, List.cons_append, collectPaths, hpr]
    rw [if_pos trivial]
    simp only [List.append_eq]
    rw [ih (fun q hq => hp q (List.mem_cons_of_mem pr hq)) rest (acc ++ [pr.2]) (n + 1)]
    congr 1
    rw [Prod.mk.injEq]
    constructor
    · simp
    · simp
      omega

/-- Row parsing succeeds on lines whose cell count matches the header,
returning the parsed cells in order. -/
theorem parseRows_ok (ncols : Nat) :
    ∀ (lst : List String), (∀ rl ∈ lst, (parseCells rl).length = ncols) →
      parseRows ncols lst = Except.ok (lst.map parseCells) := by
  intro lst
  induction lst with
  | nil => intro h; rfl
  | cons l tl ih =>
    intro h
    simp only [parseRows]
    rw [if_neg (fun hc => hc (h l (List.mem_cons_self l tl)))]
    rw [ih (fun q hq => h q (List.mem_cons_of_mem l hq))]
    rfl

/-- The path-probing loop always produces a name when at least one path is
declared (the loop variable is assigned on every iteration). -/
theorem resolveFile_isSome (pj : String → String → String) (isf : String → Bool) :
    ∀ (paths : List String) (fn : String), paths ≠ [] →
      (resolveFile pj isf paths fn).isSome = true := by
  intro paths
  induction paths with
  | nil => intro fn h; exact absurd rfl h
  | cons p tl ih =>
    intro fn h
    cases tl with
    | nil => rfl
    | cons q r =>
      simp only [resolveFile]
      split
      · rfl
      · exact ih fn (by simp)

/-- With a nonempty path list, `resolveFile` returns exactly `resolveD`. -/
theorem resolveFile_some (pj : String → String → String) (isf : String → Bool)
    (paths : List String) (fn : String) (hpne : paths ≠ []) :
    resolveFile pj isf paths fn = some (resolveD pj isf paths fn) := by
  unfold resolveD
  cases hr : resolveFile pj isf paths fn with
  | some f => rfl
  | none =>
    have := resolveFile_isSome pj isf paths fn hpne
    rw [hr] at this
    exact absurd this (by simp)

/-- When no declared path contains the file, the probe loop falls through
to the join with the *last* declared path. -/
theorem resolveD_last (pj : String → String → String) (isf : String → Bool) :
    ∀ (paths : List String) (lp fn : String),
      paths.getLast? = some lp → (∀ p ∈ paths, isf (pj p fn) = false) →
      resolveD pj isf paths fn = pj lp fn := by
  intro paths
  induction paths with
  | nil => intro lp fn h hfail; exact absurd h (by simp)
  | cons p tl ih =>
    intro lp fn hlast hfail
    cases tl with
    | nil =>
      simp only [List.getLast?_singleton, Option.some.injEq] at hlast
      subst hlast
      rfl
    | cons q r =>
      have h1 : isf (pj p fn) = false := hfail p (List.mem_cons_self p _)
      have h2 := ih lp fn (by simpa using hlast) (fun x hx => hfail x (List.mem_cons_of_mem p hx))
      unfold resolveD at h2 ⊢
      simp only [resolveFile, h1]
      simpa using h2

/-- After `d[k] = v` the key `k` is present. -/
theorem dictInsert_key_self (d : List (String × String)) (k v : String) :
    (dictInsert d k v).any (fun p => p.1 = k) = true := by
  unfold dictInsert
  split
  next h =>
    simp only [List.any_map, List.any_eq_true] at h ⊢
    obtain ⟨p, hp, hpk⟩ := h
    refine ⟨p, hp, ?_⟩
    simp only [Function.comp_apply]
    rw [if_pos (by simpa using hpk)]
    simp
  next h =>
    simp

/-- `d[k] = v` preserves every existing key. -/
theorem dictInsert_key_mono (d : List (String × String)) (k v k' : String)
    (h : d.any (fun p => p.1 = k') = true) :
    (dictInsert d k v).any (fun p => p.1 = k') = true := by
  unfold dictInsert
  split
  next hk =>
    simp only [List.any_map, List.any_eq_true] at h ⊢
    obtain ⟨p, hp, hpk⟩ := h
    refine ⟨p, hp, ?_⟩
    simp only [Function.comp_apply]
    split
    next heq =>
      simp only [decide_eq_true_eq] at hpk ⊢
      rw [← heq]
      exact hpk
    next heq => exact hpk
  next hk =>
    simp only [List.any_append, h]
    simp

/-- The frametype fold preserves existing keys. -/
theorem foldDict_key_mono (fnIdx ftIdx : Nat) :
    ∀ (rows : List (List String)) (ft : List (String × String)) (k : String),
      ft.any (fun p => p.1 = k) = true →
      (rows.foldl (fun d r => dictInsert d (r.getD fnIdx "") (r.getD ftIdx "")) ft).any
        (fun p => p.1 = k) = true := by
  intro rows
  induction rows with
  | nil => intro ft k h; exact h
  | cons row tl ih =>
    intro ft k h
    exact ih _ k (dictInsert_key_mono _ _ _ _ h)

/-- After the frametype fold, every row's filename cell is a key of the
mapping. -/
theorem foldDict_key_present (fnIdx ftIdx : Nat) :
    ∀ (rows : List (List String)) (i : Nat) (row : List String) (ft : List (String × String)),
      rows.get? i = some row →
      (rows.foldl (fun d r => dictInsert d (r.getD fnIdx "") (r.getD ftIdx "")) ft).any
        (fun p => p.1 = row.getD fnIdx "") = true := by
  intro rows
  induction rows with
  | nil => intro i row ft h; exact absurd h (by simp)
  | cons r tl ih =>
    intro i row ft h
    cases i with
    | zero =>
      simp only [List.get?_cons_zero, Option.some.injEq] at h
      subst h
      exact foldDict_key_mono fnIdx ftIdx tl _ _ (dictInsert_key_self _ _ _)
    | succ j =>
      exact ih j row _ (by simpa using h)

theorem buildRows_eq (pj : String → String → String) (isf : String → Bool)
    (paths : List String) (fnIdx ftIdx : Nat) (hpne : paths ≠ []) :
    ∀ (rows : List (List String)) (df : List String) (ft : List (String × String)),
      buildRows pj isf false paths fnIdx ftIdx rows df ft =
        Except.ok (df ++ rows.map (fun r => resolveD pj isf paths (r.getD fnIdx "")),
          rows.foldl (fun d r => dictInsert d (r.getD fnIdx "") (r.getD ftIdx "")) ft) := by
  intro rows
  induction rows with
  | nil =>
    intro df ft
    simp [buildRows]
  | cons row tl ih =>
    intro df ft
    simp only [buildRows]
    rw [resolveFile_some pj isf paths _ hpne]
    simp only [Bool.and_false, Bool.false_eq_true, if_false]
    rw [ih]
    simp [List.append_assoc]

/-- Full success computation of the table interpreter with file checking
disabled: on a block of `path` lines, a header with the mandatory columns,
and rectangular rows, it returns the row filenames resolved through the
declared paths, the frametype fold, the header and the parsed rows. -/
theorem read_table_ok (pj : String → String → String) (isf : String → Bool)
    (pls : List (String × String)) (hl t s0 : String) (rowLines : List String)
    (hp : ∀ pr ∈ pls, splitFirstSpace pr.1 = some ("path", pr.2))
    (hh : splitFirstSpace hl = some (t, s0)) (ht : t ≠ "path")
    (hfn : "filename" ∈ parseCells hl) (hft : "frametype" ∈ parseCells hl)
    (hr : ∀ rl ∈ rowLines, (parseCells rl).length = (parseCells hl).length)
    (hpne : pls ≠ []) :
    _read_data_file_table pj isf false (pls.map (fun pr => pr.1) ++ hl :: rowLines) =
      Except.ok ((rowLines.map parseCells).map (fun r =>
          resolveD pj isf (pls.map (fun pr => pr.2))
            (r.getD (lastIdxOf (parseCells hl) "filename") "")),
        (rowLines.map parseCells).foldl (fun d r => dictInsert d
          (r.getD (lastIdxOf (parseCells hl) "filename") "")
          (r.getD (lastIdxOf (parseCells hl) "frametype") "")) [],
        parseCells hl, rowLines.map parseCells) := by
  have hget : (pls.map (fun pr => pr.1) ++ hl :: rowLines).get? pls.length = some hl := by
    have h0 := get?_at_head (pls.map (fun pr => pr.1)) hl rowLines
    simpa using h0
  have hdrop : (pls.map (fun pr => pr.1) ++ hl :: rowLines).drop (pls.length + 1) = rowLines := by
    have h0 := drop_after_head (pls.map (fun pr => pr.1)) hl rowLines
    simpa using h0
  have hmapne : pls.map (fun pr => pr.2) ≠ [] := by
    simpa using hpne
  unfold _read_data_file_table
  rw [collectPaths_append hl t s0 hh ht pls hp rowLines [] 0]
  simp only [Bind.bind, Except.bind, List.nil_append, Nat.zero_add]
  rw [hget]
  dsimp only
  rw [if_neg (not_not_intro hfn), if_neg (not_not_intro hft)]
  rw [hdrop]
  rw [parseRows_ok (parseCells hl).length rowLines hr]
  dsimp only
  rw [buildRows_eq pj isf (pls.map (fun pr => pr.2)) (lastIdxOf (parseCells hl) "filename")
    (lastIdxOf (parseCells hl) "frametype") hmapne (rowLines.map parseCells) [] []]
  simp

/-- C4, counterexample.  A well-formed table block (header with `filename`
and `frametype`, one rectangular row) preceded by *zero* `path` lines
crashes: the probing loop `for p in paths` never runs, so `filename` is
unbound at `data_files.append(filename)` (`UnboundLocalError`, modelled as
`nameError`) — the interpreter does not succeed. -/
theorem C4_counterexample :
    _read_data_file_table (fun a b => a ++ "/" ++ b) (fun _ => false) false
      ["| filename | frametype |", "| a.fits | science |"] =
      Except.error PErr.nameError := by
  rfl

/-- C4, amended.  A table block may be preceded by any number of `path`
lines *of which there is at least one*: for every well-formed block (each
path line is `path <dir>`; the header line contains a space, does not
start with the token `path`, and holds the mandatory `filename` and
`frametype` columns; rows are rectangular) with a nonempty path list, the
interpreter succeeds and returns the resolved path list, the
filename-to-frametype mapping, and the row table.  With zero path lines
and at least one row it instead crashes (see the counterexample). -/
theorem C4_table_paths (pj : String → String → String) (isf : String → Bool)
    (pls : List (String × String)) (hl t s0 : String) (rowLines : List String)
    (hp : ∀ pr ∈ pls, splitFirstSpace pr.1 = some ("path", pr.2))
    (hh : splitFirstSpace hl = some (t, s0)) (ht : t ≠ "path")
    (hfn : "filename" ∈ parseCells hl) (hft : "frametype" ∈ parseCells hl)
    (hr : ∀ rl ∈ rowLines, (parseCells rl).length = (parseCells hl).length)
    (hpne : pls ≠ []) :
    ∃ df ft,
      _read_data_file_table pj isf false (pls.map (fun pr => pr.1) ++ hl :: rowLines) =
        Except.ok (df, ft, parseCells hl, rowLines.map parseCells) :=
  ⟨_, _, read_table_ok pj isf pls hl t s0 rowLines hp hh ht hfn hft hr hpne⟩

/-- C4, witness: one path line, one row. -/
theorem C4_table_paths_witness :
    ∃ df ft,
      _read_data_file_table (fun a b => a ++ "/" ++ b) (fun _ => false) false
        ([("path /d", "/d")].map (fun pr => pr.1) ++
          "| filename | frametype |" :: ["| a.fits | science |"]) =
        Except.ok (df, ft, parseCells "| filename | frametype |",
          ["| a.fits | science |"].map parseCells) := by
  refine C4_table_paths (fun a b => a ++ "/" ++ b) (fun _ => false)
    [("path /d", "/d")] "| filename | frametype |" "|" "filename | frametype |"
    ["| a.fits | science |"] ?_ (by rfl) (by decide) (by decide) (by decide) ?_ (by decide)
  · intro pr hpr
    simp only [List.mem_singleton] at hpr
    subst hpr
    rfl
  · intro rl hrl
    simp only [List.mem_singleton] at hrl
    subst hrl
    rfl

/-- C6, counterexample.  The table-mode block `["|a|b|"]` (its only line
starts with `|`, and its header lacks both mandatory columns) does not
fail with the `schemaKind` error: the path-collection loop evaluates
`l.index(" ")` on the spaceless header first and raises an uncaught
`ValueError`. -/
theorem C6_counterexample :
    _determine_data_format ["|a|b|"] = "table" ∧
    _read_data_file_table (fun a b => a ++ "/" ++ b) (fun _ => false) true ["|a|b|"] =
      Except.error PErr.valueError ∧
    PErr.valueError ≠ PErr.schemaKind := by
  refine ⟨by rfl, by rfl, by decide⟩

/-- C6, amended.  For every table block whose path scan succeeds (the
leading `path` lines and the header each contain a space) and whose header
lacks `filename` or lacks `frametype`, the interpreter fails with the
`schemaKind` error; the row lines are arbitrary — they are never examined,
so the failure happens before any data row is constructed. -/
theorem C6_schema_error (pj : String → String → String) (isf : String → Bool)
    (fc : Bool) (pls : List (String × String)) (hl t s0 : String) (rowLines : List String)
    (hp : ∀ pr ∈ pls, splitFirstSpace pr.1 = some ("path", pr.2))
    (hh : splitFirstSpace hl = some (t, s0)) (ht : t ≠ "path")
    (hmiss : "filename" ∉ parseCells hl ∨ "frametype" ∉ parseCells hl) :
    _read_data_file_table pj isf fc (pls.map (fun pr => pr.1) ++ hl :: rowLines) =
      Except.error PErr.schemaKind := by
  have hget : (pls.map (fun pr => pr.1) ++ hl :: rowLines).get? pls.length = some hl := by
    have h0 := get?_at_head (pls.map (fun pr => pr.1)) hl rowLines
    simpa using h0
  unfold _read_data_file_table
  rw [collectPaths_append hl t s0 hh ht pls hp rowLines [] 0]
  simp only [Bind.bind, Except.bind, List.nil_append, Nat.zero_add]
  rw [hget]
  dsimp only
  by_cases hc : "filename" ∉ parseCells hl
  · rw [if_pos hc]
  · rw [if_neg hc]
    rcases hmiss with hm | hm
    · exact absurd hm hc
    · rw [if_pos hm]

/-- C6, witness: a header missing the `frametype` column. -/
theorem C6_schema_error_witness :
    _read_data_file_table (fun a b => a ++ "/" ++ b) (fun _ => false) true
      ([].map (fun pr : String × String => pr.1) ++ "| filename | junk |" :: ["| x | y |"]) =
      Except.error PErr.schemaKind := by
  refine C6_schema_error (fun a b => a ++ "/" ++ b) (fun _ => false) true []
    "| filename | junk |" "|" "filename | junk |" ["| x | y |"]
    (by intro pr hpr; exact absurd hpr (by simp)) (by rfl) (by decide) (Or.inr (by decide))

/-- C9.  In table mode with file checking disabled, a row whose filename
exists under none of the declared paths still contributes an entry: the
probe loop leaves the join with the *last* declared path in `filename`,
that join is appended to the data-file list at the row's position, and the
frametype mapping is keyed by the unresolved filename cell. -/
theorem C9_last_path_fallback (pj : String → String → String) (isf : String → Bool)
    (pls : List (String × String)) (hl t s0 : String) (rowLines : List String)
    (hp : ∀ pr ∈ pls, splitFirstSpace pr.1 = some ("path", pr.2))
    (hh : splitFirstSpace hl = some (t, s0)) (ht : t ≠ "path")
    (hfn : "filename" ∈ parseCells hl) (hft : "frametype" ∈ parseCells hl)
    (hr : ∀ rl ∈ rowLines, (parseCells rl).length = (parseCells hl).length)
    (hpne : pls ≠ []) (lp : String)
    (hlast : (pls.map (fun pr => pr.2)).getLast? = some lp)
    (i : Nat) (row : List String)
    (hrow : (rowLines.map parseCells).get? i = some row)
    (hfail : ∀ p ∈ pls.map (fun pr => pr.2),
      isf (pj p (row.getD (lastIdxOf (parseCells hl) "filename") "")) = false) :
    ∃ df ft,
      _read_data_file_table pj isf false (pls.map (fun pr => pr.1) ++ hl :: rowLines) =
        Except.ok (df, ft, parseCells hl, rowLines.map parseCells) ∧
      df.get? i = some (pj lp (row.getD (lastIdxOf (parseCells hl) "filename") "")) ∧
      ft.any (fun p => p.1 = row.getD (lastIdxOf (parseCells hl) "filename") "") = true := by
  refine ⟨_, _, read_table_ok pj isf pls hl t s0 rowLines hp hh ht hfn hft hr hpne, ?_, ?_⟩
  · rw [List.get?_map, hrow, Option.map_some']
    rw [resolveD_last pj isf (pls.map (fun pr => pr.2)) lp
      (row.getD (lastIdxOf (parseCells hl) "filename") "") hlast hfail]
  · exact foldDict_key_present (lastIdxOf (parseCells hl) "filename")
      (lastIdxOf (parseCells hl) "frametype") (rowLines.map parseCells) i row [] hrow

/-- C9, witness: two declared paths, no file exists, the `/d2` join is
recorded. -/
theorem C9_last_path_fallback_witness :
    ∃ df ft,
      _read_data_file_table (fun a b => a ++ "/" ++ b) (fun _ => false) false
        ([("path /d1", "/d1"), ("path /d2", "/d2")].map (fun pr => pr.1) ++
          "| filename | frametype |" :: ["| a.fits | science |"]) =
        Except.ok (df, ft, parseCells "| filename | frametype |",
          ["| a.fits | science |"].map parseCells) ∧
      df.get? 0 = some ((fun a b => a ++ "/" ++ b) "/d2"
        ((["a.fits", "science"] : List String).getD
          (lastIdxOf (parseCells "| filename | frametype |") "filename") "")) ∧
      ft.any (fun p => p.1 = (["a.fits", "science"] : List String).getD
        (lastIdxOf (parseCells "| filename | frametype |") "filename") "") = true := by
  refine C9_last_path_fallback (fun a b => a ++ "/" ++ b) (fun _ => false)
    [("path /d1", "/d1"), ("path /d2", "/d2")] "| filename | frametype |" "|"
    "filename | frametype |" ["| a.fits | science |"] ?_ (by rfl) (by decide)
    (by decide) (by decide) ?_ (by decide) "/d2" (by rfl) 0 ["a.fits", "science"]
    (by rfl) ?_
  · intro pr hpr
    simp only [List.mem_cons, List.mem_singleton, List.not_mem_nil, or_false] at hpr
    rcases hpr with h | h
    · subst h; rfl
    · subst h; rfl
  · intro rl hrl
    simp only [List.mem_singleton] at hrl
    subst hrl
    rfl
  · intro p hpp
    rfl

end PypeItUtil
